import Mathlib

/-!
Verification of the configuration-composition core of
`core/dbt/contracts/graph/model_config.py`: JSON-like config documents,
per-field merge/show/compare policies, the extract-and-merge layering
algorithm, content-equality for change detection, the map-like access
interface of `BaseConfig`, and the snapshot-union dispatch and
error-relevance ranking.

Python dicts are embedded as association lists with string keys whose
operations (lookup, assignment, deletion, `dict.update`) preserve the
first-occurrence/insertion-order semantics of Python dictionaries.
-/

set_option maxHeartbeats 1000000

namespace DbtModelConfig

/-- A JSON/YAML-compatible value: the wire format of config documents
(strings, booleans, numbers, lists and nested mappings, plus null). -/
inductive Value where
  | null
  | bool (b : Bool)
  | int (n : Int)
  | str (s : String)
  | list (xs : List Value)
  | dict (entries : List (String × Value))

mutual

def decEqValue : (a b : Value) → Decidable (a = b)
  | .null, .null => isTrue rfl
  | .bool a, .bool b => decidable_of_iff (a = b) (by simp)
  | .int a, .int b => decidable_of_iff (a = b) (by simp)
  | .str a, .str b => decidable_of_iff (a = b) (by simp)
  | .list xs, .list ys =>
    match decEqValueList xs ys with
    | isTrue h => isTrue (by rw [h])
    | isFalse h => isFalse (by intro he; injection he; contradiction)
  | .dict xs, .dict ys =>
    match decEqValueEntries xs ys with
    | isTrue h => isTrue (by rw [h])
    | isFalse h => isFalse (by intro he; injection he; contradiction)
  | .null, .bool _ => isFalse fun h => Value.noConfusion h
  | .null, .int _ => isFalse fun h => Value.noConfusion h
  | .null, .str _ => isFalse fun h => Value.noConfusion h
  | .null, .list _ => isFalse fun h => Value.noConfusion h
  | .null, .dict _ => isFalse fun h => Value.noConfusion h
  | .bool _, .null => isFalse fun h => Value.noConfusion h
  | .bool _, .int _ => isFalse fun h => Value.noConfusion h
  | .bool _, .str _ => isFalse fun h => Value.noConfusion h
  | .bool _, .list _ => isFalse fun h => Value.noConfusion h
  | .bool _, .dict _ => isFalse fun h => Value.noConfusion h
  | .int _, .null => isFalse fun h => Value.noConfusion h
  | .int _, .bool _ => isFalse fun h => Value.noConfusion h
  | .int _, .str _ => isFalse fun h => Value.noConfusion h
  | .int _, .list _ => isFalse fun h => Value.noConfusion h
  | .int _, .dict _ => isFalse fun h => Value.noConfusion h
  | .str _, .null => isFalse fun h => Value.noConfusion h
  | .str _, .bool _ => isFalse fun h => Value.noConfusion h
  | .str _, .int _ => isFalse fun h => Value.noConfusion h
  | .str _, .list _ => isFalse fun h => Value.noConfusion h
  | .str _, .dict _ => isFalse fun h => Value.noConfusion h
  | .list _, .null => isFalse fun h => Value.noConfusion h
  | .list _, .bool _ => isFalse fun h => Value.noConfusion h
  | .list _, .int _ => isFalse fun h => Value.noConfusion h
  | .list _, .str _ => isFalse fun h => Value.noConfusion h
  | .list _, .dict _ => isFalse fun h => Value.noConfusion h
  | .dict _, .null => isFalse fun h => Value.noConfusion h
  | .dict _, .bool _ => isFalse fun h => Value.noConfusion h
  | .dict _, .int _ => isFalse fun h => Value.noConfusion h
  | .dict _, .str _ => isFalse fun h => Value.noConfusion h
  | .dict _, .list _ => isFalse fun h => Value.noConfusion h

def decEqValueList : (a b : List Value) → Decidable (a = b)
  | [], [] => isTrue rfl
  | [], _ :: _ => isFalse fun h => List.noConfusion h
  | _ :: _, [] => isFalse fun h => List.noConfusion h
  | x :: xs, y :: ys =>
    match decEqValue x y with
    | isFalse h => isFalse (by intro he; injection he; contradiction)
    | isTrue h1 =>
      match decEqValueList xs ys with
      | isTrue h2 => isTrue (by rw [h1, h2])
      | isFalse h => isFalse (by intro he; injection he; contradiction)

def decEqValueEntries : (a b : List (String × Value)) → Decidable (a = b)
  | [], [] => isTrue rfl
  | [], _ :: _ => isFalse fun h => List.noConfusion h
  | _ :: _, [] => isFalse fun h => List.noConfusion h
  | (k1, v1) :: xs, (k2, v2) :: ys =>
    if hk : k1 = k2 then
      match decEqValue v1 v2 with
      | isFalse h => isFalse (by intro he; injection he with h1 h2; apply h; cases h1; rfl)
      | isTrue h1 =>
        match decEqValueEntries xs ys with
        | isTrue h2 => isTrue (by rw [hk, h1, h2])
        | isFalse h => isFalse (by intro he; injection he; contradiction)
    else
      isFalse (by intro he; injection he with h1 h2; apply hk; cases h1; rfl)

end

instance : DecidableEq Value := decEqValue

/-- A config-like document: a Python dict with string keys, embedded as an
insertion-ordered association list. -/
abbrev Dict := List (String × Value)

/-- Python `key in d` / `d.get(key)`: first-occurrence lookup. -/
def dictLookup : Dict → String → Option Value
  | [], _ => none
  | (k, v) :: rest, key => if k = key then some v else dictLookup rest key

/-- Python `key in d`. -/
def hasKey (d : Dict) (key : String) : Bool :=
  (dictLookup d key).isSome

/-- Python `d[key] = v`: replace in place if the key exists, else append. -/
def dictInsert : Dict → String → Value → Dict
  | [], key, v => [(key, v)]
  | (k, w) :: rest, key, v =>
    if k = key then (k, v) :: rest else (k, w) :: dictInsert rest key v

/-- Python `d.pop(key)` / `del d[key]` (key-removal part). -/
def dictErase : Dict → String → Dict
  | [], _ => []
  | (k, v) :: rest, key =>
    if k = key then dictErase rest key else (k, v) :: dictErase rest key

/-- Python `d.update(other)`: assign every entry of `other` into `d`. -/
def dictUpdate (d other : Dict) : Dict :=
  other.foldl (fun acc p => dictInsert acc p.1 p.2) d

/-- Python `list(d.keys())`. -/
def keysOf (d : Dict) : List String :=
  d.map Prod.fst

/-- `MergeBehavior` from the source: how a new-layer value combines with an
existing value for one field. -/
inductive MergeBehavior where
  | Append
  | Update
  | Clobber
deriving DecidableEq, Repr

/-- `ShowBehavior` from the source: whether an empty value is dropped from
non-sparse serialization. -/
inductive ShowBehavior where
  | Show
  | Hide
deriving DecidableEq, Repr

/-- `CompareBehavior` from the source: whether the field participates in
change-detection equality. -/
inductive CompareBehavior where
  | Include
  | Exclude
deriving DecidableEq, Repr

/-- The errors the module raises: `InternalException` (merge-type mismatch,
invalid policy metadata), `CompilationException` (protected-key deletion) and
Python `KeyError`. -/
inductive DbtError where
  | internalError (msg : String)
  | compilationError (msg : String)
  | keyError (key : String)
deriving DecidableEq, Repr

/-- A dataclass field of a config class together with its resolved policy
metadata. `Metadata.from_field` resolves an absent tag to the default
(`Clobber` / `Show` / `Include`), which the default field values mirror. -/
structure FieldSpec where
  name : String
  merge : MergeBehavior := MergeBehavior.Clobber
  show_hide : ShowBehavior := ShowBehavior.Show
  compare : CompareBehavior := CompareBehavior.Include
deriving DecidableEq, Repr

/-- The declared target-field names of a config class, in declaration order
(`cls._get_fields()` second components). -/
def fieldNames (fields : List FieldSpec) : List String :=
  fields.map FieldSpec.name

/-- `ShowBehavior.should_show`. -/
def should_show (f : FieldSpec) : Bool :=
  f.show_hide = ShowBehavior.Show

/-- `CompareBehavior.should_include`. -/
def should_include (f : FieldSpec) : Bool :=
  f.compare = CompareBehavior.Include

/-- `_listify`: coerce a value to a list, copying a list and wrapping any
other value as a singleton. -/
def listify (value : Value) : List Value :=
  match value with
  | Value.list xs => xs
  | v => [v]

/-- `_merge_field_value`: combine an existing (`self_value`) and an incoming
(`other_value`) value per the merge behavior. `Update` raises
`InternalException` when either side is not a dict. -/
def merge_field_value (merge_behavior : MergeBehavior)
    (self_value other_value : Value) : Except DbtError Value :=
  match merge_behavior with
  | MergeBehavior.Clobber => Except.ok other_value
  | MergeBehavior.Append =>
    Except.ok (Value.list (listify self_value ++ listify other_value))
  | MergeBehavior.Update =>
    match self_value with
    | Value.dict self_entries =>
      match other_value with
      | Value.dict other_entries =>
        Except.ok (Value.dict (dictUpdate self_entries other_entries))
      | _ => Except.error (DbtError.internalError "expected dict, got other_value")
    | _ => Except.error (DbtError.internalError "expected dict, got self_value")

/-- Whether a value is mapping-typed (Python `isinstance(value, dict)`). -/
def isDictValue : Value → Bool
  | Value.dict _ => true
  | _ => false

/-- `BaseConfig.compare_key`: three-way presence comparison of one key across
two raw documents. -/
def compare_key (unrendered other : Dict) (key : String) : Bool :=
  if !hasKey unrendered key && !hasKey other key then true
  else if !hasKey unrendered key && hasKey other key then false
  else if hasKey unrendered key && !hasKey other key then false
  else dictLookup unrendered key = dictLookup other key

/-- The declared-fields pass of `BaseConfig.same_contents`: walk the fields in
declaration order and fail on the first Include-policy field whose key the two
documents disagree on. -/
def same_contents_fields (unrendered other : Dict) : List FieldSpec → Bool
  | [] => true
  | f :: rest =>
    if should_include f && !compare_key unrendered other f.name then false
    else same_contents_fields unrendered other rest

/-- The pass-through pass of `BaseConfig.same_contents`: walk
`chain(unrendered, other)` key by key, skipping keys already seen, and fail on
the first disagreeing key. -/
def same_contents_extras (unrendered other : Dict) :
    List String → List String → Bool
  | _, [] => true
  | seen, key :: rest =>
    if key ∈ seen then same_contents_extras unrendered other seen rest
    else if !compare_key unrendered other key then false
    else same_contents_extras unrendered other (key :: seen) rest

/-- `BaseConfig.same_contents`: change-detection equivalence of two raw
documents for a config class with the given declared fields. -/
def same_contents (fields : List FieldSpec) (unrendered other : Dict) : Bool :=
  same_contents_fields unrendered other fields &&
    same_contents_extras unrendered other (fieldNames fields)
      (keysOf unrendered ++ keysOf other)

/-- The spec's three-way presence logic for one key, stated as a
proposition: both absent means equal; present in exactly one means not
equal; present in both means equal iff the values are equal. -/
def agreesOn (unrendered other : Dict) (key : String) : Prop :=
  match dictLookup unrendered key, dictLookup other key with
  | none, none => True
  | some a, some b => a = b
  | _, _ => False

/-- `BaseConfig._extract_dict`, with the mutable documents made explicit:
given the declared fields of the class, the source document `src` and the
incoming document `data`, returns `(result, src, data)` — the merge results,
the (read-only) source document and what is left of the incoming document
after every matching key has been popped from it. -/
def extract_dict : List FieldSpec → Dict → Dict → Except DbtError (Dict × Dict × Dict)
  | [], src, data => Except.ok ([], src, data)
  | f :: rest, src, data =>
    match dictLookup data f.name with
    | none => extract_dict rest src data
    | some data_attr =>
      let data1 := dictErase data f.name
      match dictLookup src f.name with
      | none =>
        match extract_dict rest src data1 with
        | Except.ok (result, src1, data2) =>
          Except.ok (dictInsert result f.name data_attr, src1, data2)
        | Except.error e => Except.error e
      | some self_attr =>
        match merge_field_value f.merge self_attr data_attr with
        | Except.error e => Except.error e
        | Except.ok merged =>
          match extract_dict rest src data1 with
          | Except.ok (result, src1, data2) =>
            Except.ok (dictInsert result f.name merged, src1, data2)
          | Except.error e => Except.error e

/-- One iteration of the `omit_hidden` loop body of `BaseConfig.to_dict`:
if the field's entry is present in the serialized mapping, is `None`, and the
field's Show policy is not `Show`, delete it; otherwise leave the mapping
unchanged. -/
def hide_step (f : FieldSpec) (result : Dict) : Dict :=
  match dictLookup result f.name with
  | none => result
  | some v =>
    if v ≠ Value.null then result
    else if should_show f then result
    else dictErase result f.name

/-- The `omit_hidden` post-pass of `BaseConfig.to_dict`: run `hide_step` over
the declared fields in order, starting from the serialized mapping produced by
the external serializer (hologram `JsonSchemaMixin.to_dict`, which with
`omit_none=False` emits every declared field, null-valued ones included). -/
def to_dict_hide_pass : List FieldSpec → Dict → Dict
  | [], result => result
  | f :: rest, result => to_dict_hide_pass rest (hide_step f result)

/-- `BaseConfig.to_dict`: the hide pass runs exactly when `omit_hidden` is set
and `omit_none` is not; otherwise the serialized mapping is returned
unchanged. `base` is the mapping produced by the external serializer. -/
def to_dict (fields : List FieldSpec) (base : Dict)
    (omit_none : Bool) (omit_hidden : Bool) : Dict :=
  if omit_hidden && !omit_none then to_dict_hide_pass fields base else base

/-- `BaseConfig.update_from`, with the externally supplied pieces made
explicit: the adapter config class resolved by `get_config_class_by_name` is
represented by its declared field list `adapter_fields`, and the function
returns the final merged mapping that the source hands to `from_dict` for
structural validation and rebuilding. `self_dict` is the record serialized by
`self.to_dict(omit_none=False, validate=False, omit_hidden=False)`. -/
def update_from (self_fields adapter_fields : List FieldSpec)
    (self_dict data : Dict) : Except DbtError Dict :=
  let dct := to_dict self_fields self_dict false false
  match extract_dict self_fields dct data with
  | Except.error e => Except.error e
  | Except.ok (self_merged, _, data1) =>
    let dct1 := dictUpdate dct self_merged
    match extract_dict adapter_fields dct1 data1 with
    | Except.error e => Except.error e
    | Except.ok (adapter_merged, _, data2) =>
      let dct2 := dictUpdate dct1 adapter_merged
      Except.ok (dictUpdate dct2 data2)

/-- The attribute names `hasattr` finds on every `BaseConfig` instance besides
its dataclass fields: the `_extra` mapping and the methods defined on
`BaseConfig` or inherited (`JsonSchemaMixin.from_dict` and `to_dict`,
`Replaceable.replace`, and the `MutableMapping` mixin methods). -/
def base_attr_names : List String :=
  ["_extra", "to_dict", "from_dict", "update_from", "finalize_and_validate",
   "replace", "same_contents", "compare_key", "field_mapping",
   "items", "keys", "values", "get", "pop", "popitem", "clear", "update",
   "setdefault"]

/-- A `BaseConfig` instance as seen by its map-like interface:
`instanceAttrs` is the instance dictionary apart from `_extra` (the declared
dataclass fields with their current values, plus anything assigned over them
by `setattr`), and `extra` is the `_extra` mapping for undeclared keys. -/
structure ConfigObj where
  instanceAttrs : Dict
  extra : Dict
deriving DecidableEq

/-- What an attribute access on the record returns: a field (or shadowed)
value from the instance dictionary, or a class-level attribute such as a
bound method. -/
inductive Attr where
  | fieldValue (v : Value)
  | methodAttr (name : String)
deriving DecidableEq

/-- Python `hasattr(self, key)`: instance dictionary first, then class
attributes. -/
def hasattr (obj : ConfigObj) (key : String) : Bool :=
  hasKey obj.instanceAttrs key || base_attr_names.contains key

/-- `BaseConfig.__getitem__`: `getattr(self, key)` when `hasattr`, else
`self._extra[key]` (Python `KeyError` when absent there too). -/
def getitem (obj : ConfigObj) (key : String) : Except DbtError Attr :=
  if hasattr obj key then
    match dictLookup obj.instanceAttrs key with
    | some v => Except.ok (Attr.fieldValue v)
    | none => Except.ok (Attr.methodAttr key)
  else
    match dictLookup obj.extra key with
    | some v => Except.ok (Attr.fieldValue v)
    | none => Except.error (DbtError.keyError key)

/-- `BaseConfig.__setitem__`: `setattr(self, key, value)` when `hasattr`
(which writes the instance dictionary), else insert into `_extra`. -/
def setitem (obj : ConfigObj) (key : String) (v : Value) : ConfigObj :=
  if hasattr obj key then
    { obj with instanceAttrs := dictInsert obj.instanceAttrs key v }
  else
    { obj with extra := dictInsert obj.extra key v }

/-- The `CompilationException` message raised by `BaseConfig.__delitem__`. -/
def protected_key_msg (key : String) : String :=
  "Error, tried to delete config key \"" ++ key ++ "\": Cannot delete built-in keys"

/-- `BaseConfig.__delitem__`: raise `CompilationException` when `hasattr`,
else delete from `_extra` (Python `KeyError` when absent there). -/
def delitem (obj : ConfigObj) (key : String) : Except DbtError ConfigObj :=
  if hasattr obj key then
    Except.error (DbtError.compilationError (protected_key_msg key))
  else
    match dictLookup obj.extra key with
    | some _ => Except.ok { obj with extra := dictErase obj.extra key }
    | none => Except.error (DbtError.keyError key)

/-- Which schema `SnapshotWrapper.validate` selects. -/
inductive SchemaChoice where
  | checkSchema
  | timestampSchema
  | genericSchema
deriving DecidableEq, Repr

/-- The schema dispatch of `SnapshotWrapper.validate`: inspect
`data.get('config', {}).get('strategy')` and pick the check-strategy schema,
the timestamp-strategy schema (both validating the `config` sub-document), or
the wrapper's own generic schema (validating the whole document). Returns the
chosen schema together with the document handed to the validator; `none`
models the `AttributeError` Python raises when a present `config` entry is
not a mapping. -/
def snapshot_dispatch (data : Dict) : Option (SchemaChoice × Dict) :=
  match (dictLookup data "config").getD (Value.dict []) with
  | Value.dict config =>
    if dictLookup config "strategy" = some (Value.str "check") then
      some (SchemaChoice.checkSchema, config)
    else if dictLookup config "strategy" = some (Value.str "timestamp") then
      some (SchemaChoice.timestampSchema, config)
    else
      some (SchemaChoice.genericSchema, data)
  | _ => none

/-- One element of a structural violation's path: a mapping key or a
sequence index. -/
inductive PathElem where
  | strKey (s : String)
  | idx (n : Nat)
deriving DecidableEq, Repr

/-- A structural violation as the external validator reports it: a path, a
rule-kind identifier (`error.validator`) and a human-readable message. -/
structure VError where
  path : List PathElem
  validator : String
  message : String
deriving DecidableEq, Repr

/-- `_relevance_without_strategy`: the ranking key. The normal relevance of
an error is minus its path depth, except that an error sitting on the
`strategy` field whose rule kind is an enum or negation check gets weight 1;
the second tuple component is whether the rule kind is not `anyOf`/`oneOf`. -/
def relevance_without_strategy (e : VError) : Int × Bool :=
  ((if decide (PathElem.strKey "strategy" ∈ e.path) &&
        (e.validator == "enum" || e.validator == "not") then (1 : Int)
    else -(e.path.length : Int)),
   !(e.validator == "anyOf" || e.validator == "oneOf"))

/-- Python comparison of two ranking keys: lexicographic on the tuple with
`False < True` in the second component. -/
def pyKeyLt (a b : Int × Bool) : Bool :=
  decide (a.1 < b.1) || (decide (a.1 = b.1) && (!a.2 && b.2))

/-- Modelled from the spec: the best-violation selection that
`SnapshotWrapper.validate` delegates to is missing from src/ — it is the
external structural validator's `jsonschema.exceptions.best_match`, which the
spec describes only as reporting the single best violation under the ranking
key. That routine is Python `max(errors, key=...)` over the violations: it
returns the first error whose ranking key is maximal in Python's
lexicographic tuple order. -/
def best_match (errors : List VError) : Option VError :=
  match errors with
  | [] => none
  | e :: rest =>
    some (rest.foldl
      (fun best e2 =>
        if pyKeyLt (relevance_without_strategy best)
            (relevance_without_strategy e2) then e2 else best)
      e)

/-- Modelled from the spec: the required-field violations the external
structural validator reports when checking a snapshot `config` document
against the timestamp-strategy schema, which is missing from src/. The spec
gives that schema's mandatory fields: the snapshot identity fields
(`unique_key`, `target_schema`), the `strategy` tag and the
timestamp-tracking column `updated_at`; each mandatory field missing from the
document yields one `required` violation at the document root naming the
field. -/
def timestamp_required_fields : List String :=
  ["strategy", "unique_key", "target_schema", "updated_at"]

def timestamp_required_errors (config : Dict) : List VError :=
  (timestamp_required_fields.filter (fun k => !hasKey config k)).map
    (fun k =>
      { path := [], validator := "required",
        message := k ++ " is a required property" })

/-- The suppressed error from the source comment: an enum violation on the
`strategy` field. -/
def strategy_enum_error : VError :=
  { path := [PathElem.strKey "strategy"], validator := "enum",
    message := "timestamp is not one of [check]" }

/-- A required-property violation at the document root naming `updated_at`. -/
def required_updated_at_error : VError :=
  { path := [], validator := "required",
    message := "updated_at is a required property" }

/-- A union-style violation at the document root. -/
def anyof_union_error : VError :=
  { path := [], validator := "anyOf",
    message := "not valid under any of the given schemas" }

/-- A plain type violation on a nested path. -/
def deep_type_error : VError :=
  { path := [PathElem.strKey "config", PathElem.strKey "updated_at"],
    validator := "type", message := "updated_at is not of type string" }

/-- The config sub-document of the spec's variant-resolution example:
`strategy = "timestamp"` with the identity fields set but `updated_at`
missing. -/
def snapshot_c3_config : Dict :=
  [("strategy", Value.str "timestamp"), ("unique_key", Value.str "id"),
   ("target_schema", Value.str "snapshots")]

theorem dictLookup_eq_none_iff (d : Dict) (key : String) :
    dictLookup d key = none ↔ key ∉ keysOf d := by
  induction d with
  | nil => simp [dictLookup, keysOf]
  | cons p rest ih =>
    obtain ⟨k, v⟩ := p
    by_cases h : k = key
    · subst h
      simp [dictLookup, keysOf]
    · simp [dictLookup, keysOf, h, ih, Ne.symm h]

theorem dictLookup_isSome_iff (d : Dict) (key : String) :
    (dictLookup d key).isSome = true ↔ key ∈ keysOf d := by
  rw [Option.isSome_iff_ne_none]
  constructor
  · intro h
    by_contra hmem
    exact h ((dictLookup_eq_none_iff d key).mpr hmem)
  · intro h hnone
    exact ((dictLookup_eq_none_iff d key).mp hnone) h

theorem hasKey_iff_mem (d : Dict) (key : String) :
    hasKey d key = true ↔ key ∈ keysOf d := by
  unfold hasKey
  exact dictLookup_isSome_iff d key

theorem dictLookup_dictInsert (d : Dict) (k key : String) (v : Value) :
    dictLookup (dictInsert d k v) key = if key = k then some v else dictLookup d key := by
  induction d with
  | nil =>
    by_cases h : key = k
    · subst h
      simp [dictInsert, dictLookup]
    · have h2 : ¬ k = key := fun he => h he.symm
      simp [dictInsert, dictLookup, h, h2]
  | cons p rest ih =>
    obtain ⟨k0, w⟩ := p
    by_cases h0 : k0 = k
    · subst h0
      by_cases h : key = k0
      · subst h
        simp [dictInsert, dictLookup]
      · have h2 : ¬ k0 = key := fun he => h he.symm
        simp [dictInsert, dictLookup, h, h2]
    · by_cases h : k0 = key
      · subst h
        simp [dictInsert, dictLookup, h0]
      · simp [dictInsert, dictLookup, h0, h, ih]

theorem dictLookup_dictErase (d : Dict) (k key : String) :
    dictLookup (dictErase d k) key = if key = k then none else dictLookup d key := by
  induction d with
  | nil =>
    by_cases h : key = k <;> simp [dictErase, dictLookup, h]
  | cons p rest ih =>
    obtain ⟨k0, w⟩ := p
    by_cases h0 : k0 = k
    · subst h0
      by_cases h : key = k0
      · subst h
        simpa [dictErase, dictLookup] using ih
      · have h2 : ¬ k0 = key := fun he => h he.symm
        simpa [dictErase, dictLookup, h, h2] using ih
    · by_cases h : k0 = key
      · subst h
        simp [dictErase, dictLookup, h0]
      · simp [dictErase, dictLookup, h0, h, ih]

theorem keysOf_dictErase_sublist (d : Dict) (k : String) :
    List.Sublist (keysOf (dictErase d k)) (keysOf d) := by
  induction d with
  | nil => simp [dictErase, keysOf]
  | cons p rest ih =>
    obtain ⟨k0, w⟩ := p
    by_cases h0 : k0 = k
    · simp only [dictErase, if_pos h0, keysOf, List.map_cons]
      exact List.Sublist.cons k0 ih
    · simp only [dictErase, if_neg h0, keysOf, List.map_cons]
      exact List.Sublist.cons₂ k0 ih

theorem keysOf_dictErase_nodup (d : Dict) (k : String)
    (h : (keysOf d).Nodup) : (keysOf (dictErase d k)).Nodup := by
  exact List.Nodup.sublist (keysOf_dictErase_sublist d k) h

theorem keysOf_dictInsert (d : Dict) (k : String) (v : Value) :
    keysOf (dictInsert d k v) = if k ∈ keysOf d then keysOf d else keysOf d ++ [k] := by
  induction d with
  | nil => simp [dictInsert, keysOf]
  | cons p rest ih =>
    obtain ⟨k0, w⟩ := p
    by_cases h0 : k0 = k
    · subst h0
      simp [dictInsert, keysOf]
    · have hne : ¬ k = k0 := fun he => h0 he.symm
      have hstep : dictInsert ((k0, w) :: rest) k v = (k0, w) :: dictInsert rest k v := by
        simp [dictInsert, h0]
      rw [hstep]
      by_cases hmem : k ∈ keysOf rest
      · have hcond : k ∈ keysOf ((k0, w) :: rest) := List.mem_cons_of_mem k0 hmem
        rw [if_pos hcond]
        show k0 :: keysOf (dictInsert rest k v) = k0 :: keysOf rest
        rw [ih, if_pos hmem]
      · have hcond : k ∉ keysOf ((k0, w) :: rest) := by
          intro hc
          rcases List.mem_cons.mp hc with hc1 | hc2
          · exact hne hc1
          · exact hmem hc2
        rw [if_neg hcond]
        show k0 :: keysOf (dictInsert rest k v) = (k0 :: keysOf rest) ++ [k]
        rw [ih, if_neg hmem, List.cons_append]

theorem keysOf_dictInsert_nodup (d : Dict) (k : String) (v : Value)
    (h : (keysOf d).Nodup) : (keysOf (dictInsert d k v)).Nodup := by
  rw [keysOf_dictInsert]
  by_cases hmem : k ∈ keysOf d
  · simpa [hmem] using h
  · simp only [hmem, if_false]
    refine List.Nodup.append h (List.nodup_singleton k) ?_
    simpa [List.disjoint_singleton] using hmem

theorem dictLookup_dictUpdate (d other : Dict) (key : String)
    (h : (keysOf other).Nodup) :
    dictLookup (dictUpdate d other) key =
      match dictLookup other key with
      | some v => some v
      | none => dictLookup d key := by
  induction other generalizing d with
  | nil => simp [dictUpdate, dictLookup]
  | cons p rest ih =>
    obtain ⟨k0, v0⟩ := p
    simp only [keysOf, List.map_cons, List.nodup_cons] at h
    have step : dictUpdate d ((k0, v0) :: rest) = dictUpdate (dictInsert d k0 v0) rest := rfl
    rw [step, ih (dictInsert d k0 v0) h.2]
    by_cases hk : k0 = key
    · subst hk
      have hrest : dictLookup rest k0 = none :=
        (dictLookup_eq_none_iff rest k0).mpr (by simpa [keysOf] using h.1)
      simp [dictLookup, hrest, dictLookup_dictInsert]
    · have hne : ¬ key = k0 := fun he => hk he.symm
      simp only [dictLookup, hk, if_false]
      cases hrest : dictLookup rest key with
      | some v => rfl
      | none => simp [dictLookup_dictInsert, hne]

theorem compare_key_iff_agreesOn (unrendered other : Dict) (key : String) :
    compare_key unrendered other key = true ↔ agreesOn unrendered other key := by
  unfold compare_key agreesOn hasKey
  cases hu : dictLookup unrendered key with
  | none =>
    cases ho : dictLookup other key with
    | none => simp
    | some b => simp
  | some a =>
    cases ho : dictLookup other key with
    | none => simp
    | some b => simp

theorem same_contents_fields_iff (u o : Dict) (fs : List FieldSpec) :
    same_contents_fields u o fs = true ↔
      ∀ f ∈ fs, should_include f = true → compare_key u o f.name = true := by
  induction fs with
  | nil => simp [same_contents_fields]
  | cons f rest ih =>
    by_cases h : (should_include f && !compare_key u o f.name) = true
    · have hh := h
      rw [Bool.and_eq_true, Bool.not_eq_true'] at hh
      have hstep : same_contents_fields u o (f :: rest) = false := by
        simp only [same_contents_fields, if_pos h]
      rw [hstep]
      constructor
      · intro hfalse
        exact Bool.noConfusion hfalse
      · intro hall
        have hc := hall f (List.mem_cons_self f rest) hh.1
        rw [hh.2] at hc
        exact Bool.noConfusion hc
    · have hf : should_include f = true → compare_key u o f.name = true := by
        intro hi
        cases hcp : compare_key u o f.name with
        | true => rfl
        | false =>
          exact absurd (by rw [hi, hcp]; rfl :
            (should_include f && !compare_key u o f.name) = true) h
      have hstep : same_contents_fields u o (f :: rest) =
          same_contents_fields u o rest := by
        simp only [same_contents_fields, if_neg h]
      rw [hstep, ih, List.forall_mem_cons]
      constructor
      · intro hrest
        exact ⟨hf, hrest⟩
      · intro hboth
        exact hboth.2

theorem same_contents_extras_iff (u o : Dict) (ks : List String) :
    ∀ seen : List String,
      (same_contents_extras u o seen ks = true ↔
        ∀ k ∈ ks, k ∉ seen → compare_key u o k = true) := by
  induction ks with
  | nil =>
    intro seen
    simp [same_contents_extras]
  | cons k rest ih =>
    intro seen
    by_cases hseen : k ∈ seen
    · have hstep : same_contents_extras u o seen (k :: rest) =
          same_contents_extras u o seen rest := by
        simp only [same_contents_extras, if_pos hseen]
      rw [hstep, ih seen]
      constructor
      · intro hall k2 hk2 hnot
        rcases List.mem_cons.mp hk2 with rfl | h2
        · exact absurd hseen hnot
        · exact hall k2 h2 hnot
      · intro hall k2 hk2 hnot
        exact hall k2 (List.mem_cons_of_mem k hk2) hnot
    · by_cases hcp : compare_key u o k = true
      · have hstep : same_contents_extras u o seen (k :: rest) =
            same_contents_extras u o (k :: seen) rest := by
          simp only [same_contents_extras, if_neg hseen, hcp]
          rfl
        rw [hstep, ih (k :: seen)]
        constructor
        · intro hall k2 hk2 hnot
          rcases List.mem_cons.mp hk2 with rfl | h2
          · exact hcp
          · by_cases hk2k : k2 = k
            · subst hk2k
              exact hcp
            · refine hall k2 h2 ?_
              intro hc
              rcases List.mem_cons.mp hc with h4 | h4
              · exact hk2k h4
              · exact hnot h4
        · intro hall k2 hk2 hnot
          have hnot2 : k2 ∉ seen := fun hc => hnot (List.mem_cons_of_mem k hc)
          exact hall k2 (List.mem_cons_of_mem k hk2) hnot2
      · have hcp2 : compare_key u o k = false := Bool.eq_false_iff.mpr hcp
        have hstep : same_contents_extras u o seen (k :: rest) = false := by
          simp only [same_contents_extras, if_neg hseen, hcp2]
          rfl
        rw [hstep]
        constructor
        · intro hfalse
          exact Bool.noConfusion hfalse
        · intro hall
          have hc := hall k (List.mem_cons_self k rest) hseen
          rw [hc] at hcp2
          exact Bool.noConfusion hcp2

theorem extract_dict_ok_spec (src : Dict) :
    ∀ (fields : List FieldSpec) (data r s1 d1 : Dict),
      extract_dict fields src data = Except.ok (r, s1, d1) →
      s1 = src ∧
      (∀ k, dictLookup d1 k =
        if k ∈ fieldNames fields then none else dictLookup data k) ∧
      (∀ k, k ∉ fieldNames fields → dictLookup r k = none) ∧
      (∀ k, dictLookup data k = none → dictLookup r k = none) := by
  intro fields
  induction fields with
  | nil =>
    intro data r s1 d1 h
    simp only [extract_dict, Except.ok.injEq, Prod.mk.injEq] at h
    obtain ⟨rfl, rfl, rfl⟩ := h
    refine ⟨rfl, ?_, ?_, ?_⟩
    · intro k
      simp [fieldNames]
    · intro k _
      simp [dictLookup]
    · intro k _
      simp [dictLookup]
  | cons f rest ih =>
    intro data r s1 d1 h
    simp only [extract_dict] at h
    cases hd : dictLookup data f.name with
    | none =>
      simp only [hd] at h
      obtain ⟨hA, hB, hC, hD⟩ := ih data r s1 d1 h
      refine ⟨hA, ?_, ?_, hD⟩
      · intro k
        rw [hB k]
        by_cases hmem : k ∈ fieldNames rest
        · have h1 : k ∈ fieldNames (f :: rest) := List.mem_cons_of_mem _ hmem
          rw [if_pos hmem, if_pos h1]
        · by_cases hk : k = f.name
          · subst hk
            have h1 : f.name ∈ fieldNames (f :: rest) := List.mem_cons_self _ _
            rw [if_neg hmem, if_pos h1, hd]
          · have h1 : k ∉ fieldNames (f :: rest) := by
              intro hc
              rcases List.mem_cons.mp hc with hcc | hcc
              · exact hk hcc
              · exact hmem hcc
            rw [if_neg hmem, if_neg h1]
      · intro k hk
        have : k ∉ fieldNames rest := fun hc => hk (List.mem_cons_of_mem _ hc)
        exact hC k this
    | some dv =>
      simp only [hd] at h
      cases hs : dictLookup src f.name with
      | none =>
        simp only [hs] at h
        cases hrec : extract_dict rest src (dictErase data f.name) with
        | error e =>
          simp only [hrec] at h
          exact Except.noConfusion h
        | ok trip =>
          obtain ⟨r2, s2, d2⟩ := trip
          simp only [hrec, Except.ok.injEq, Prod.mk.injEq] at h
          obtain ⟨rfl, rfl, rfl⟩ := h
          obtain ⟨hA, hB, hC, hD⟩ := ih (dictErase data f.name) r2 s2 d2 hrec
          refine ⟨hA, ?_, ?_, ?_⟩
          · intro k
            rw [hB k]
            by_cases hmem : k ∈ fieldNames rest
            · have h1 : k ∈ fieldNames (f :: rest) := List.mem_cons_of_mem _ hmem
              rw [if_pos hmem, if_pos h1]
            · by_cases hk : k = f.name
              · subst hk
                have h1 : f.name ∈ fieldNames (f :: rest) := List.mem_cons_self _ _
                rw [if_neg hmem, if_pos h1, dictLookup_dictErase, if_pos rfl]
              · have h1 : k ∉ fieldNames (f :: rest) := by
                  intro hc
                  rcases List.mem_cons.mp hc with hcc | hcc
                  · exact hk hcc
                  · exact hmem hcc
                rw [if_neg hmem, if_neg h1, dictLookup_dictErase, if_neg hk]
          · intro k hk
            have hk1 : k ≠ f.name := fun he => hk (he ▸ List.mem_cons_self _ _)
            have hk2 : k ∉ fieldNames rest := fun hc => hk (List.mem_cons_of_mem _ hc)
            rw [dictLookup_dictInsert, if_neg hk1]
            exact hC k hk2
          · intro k hnone
            have hk1 : k ≠ f.name := by
              intro he
              rw [he, hd] at hnone
              exact Option.noConfusion hnone
            rw [dictLookup_dictInsert, if_neg hk1]
            refine hD k ?_
            rw [dictLookup_dictErase, if_neg hk1]
            exact hnone
      | some sv =>
        simp only [hs] at h
        cases hm : merge_field_value f.merge sv dv with
        | error e =>
          simp only [hm] at h
          exact Except.noConfusion h
        | ok m =>
          simp only [hm] at h
          cases hrec : extract_dict rest src (dictErase data f.name) with
          | error e =>
            simp only [hrec] at h
            exact Except.noConfusion h
          | ok trip =>
            obtain ⟨r2, s2, d2⟩ := trip
            simp only [hrec, Except.ok.injEq, Prod.mk.injEq] at h
            obtain ⟨rfl, rfl, rfl⟩ := h
            obtain ⟨hA, hB, hC, hD⟩ := ih (dictErase data f.name) r2 s2 d2 hrec
            refine ⟨hA, ?_, ?_, ?_⟩
            · intro k
              rw [hB k]
              by_cases hmem : k ∈ fieldNames rest
              · have h1 : k ∈ fieldNames (f :: rest) := List.mem_cons_of_mem _ hmem
                rw [if_pos hmem, if_pos h1]
              · by_cases hk : k = f.name
                · subst hk
                  have h1 : f.name ∈ fieldNames (f :: rest) := List.mem_cons_self _ _
                  rw [if_neg hmem, if_pos h1, dictLookup_dictErase, if_pos rfl]
                · have h1 : k ∉ fieldNames (f :: rest) := by
                    intro hc
                    rcases List.mem_cons.mp hc with hcc | hcc
                    · exact hk hcc
                    · exact hmem hcc
                  rw [if_neg hmem, if_neg h1, dictLookup_dictErase, if_neg hk]
            · intro k hk
              have hk1 : k ≠ f.name := fun he => hk (he ▸ List.mem_cons_self _ _)
              have hk2 : k ∉ fieldNames rest := fun hc => hk (List.mem_cons_of_mem _ hc)
              rw [dictLookup_dictInsert, if_neg hk1]
              exact hC k hk2
            · intro k hnone
              have hk1 : k ≠ f.name := by
                intro he
                rw [he, hd] at hnone
                exact Option.noConfusion hnone
              rw [dictLookup_dictInsert, if_neg hk1]
              refine hD k ?_
              rw [dictLookup_dictErase, if_neg hk1]
              exact hnone

theorem extract_dict_result_keys_nodup (src : Dict) :
    ∀ (fields : List FieldSpec) (data r s1 d1 : Dict),
      extract_dict fields src data = Except.ok (r, s1, d1) →
      (keysOf r).Nodup := by
  intro fields
  induction fields with
  | nil =>
    intro data r s1 d1 h
    simp only [extract_dict, Except.ok.injEq, Prod.mk.injEq] at h
    obtain ⟨rfl, rfl, rfl⟩ := h
    simp [keysOf]
  | cons f rest ih =>
    intro data r s1 d1 h
    simp only [extract_dict] at h
    cases hd : dictLookup data f.name with
    | none =>
      simp only [hd] at h
      exact ih data r s1 d1 h
    | some dv =>
      simp only [hd] at h
      cases hs : dictLookup src f.name with
      | none =>
        simp only [hs] at h
        cases hrec : extract_dict rest src (dictErase data f.name) with
        | error e =>
          simp only [hrec] at h
          exact Except.noConfusion h
        | ok trip =>
          obtain ⟨r2, s2, d2⟩ := trip
          simp only [hrec, Except.ok.injEq, Prod.mk.injEq] at h
          obtain ⟨rfl, rfl, rfl⟩ := h
          exact keysOf_dictInsert_nodup r2 f.name dv (ih _ _ _ _ hrec)
      | some sv =>
        simp only [hs] at h
        cases hm : merge_field_value f.merge sv dv with
        | error e =>
          simp only [hm] at h
          exact Except.noConfusion h
        | ok m =>
          simp only [hm] at h
          cases hrec : extract_dict rest src (dictErase data f.name) with
          | error e =>
            simp only [hrec] at h
            exact Except.noConfusion h
          | ok trip =>
            obtain ⟨r2, s2, d2⟩ := trip
            simp only [hrec, Except.ok.injEq, Prod.mk.injEq] at h
            obtain ⟨rfl, rfl, rfl⟩ := h
            exact keysOf_dictInsert_nodup r2 f.name m (ih _ _ _ _ hrec)

theorem extract_dict_result_lookup (src : Dict) :
    ∀ (fields : List FieldSpec) (data r s1 d1 : Dict),
      extract_dict fields src data = Except.ok (r, s1, d1) →
      (fieldNames fields).Nodup →
      ∀ f ∈ fields, ∀ dv, dictLookup data f.name = some dv →
        (dictLookup src f.name = none → dictLookup r f.name = some dv) ∧
        (∀ sv, dictLookup src f.name = some sv →
          ∃ m, merge_field_value f.merge sv dv = Except.ok m ∧
            dictLookup r f.name = some m) := by
  intro fields
  induction fields with
  | nil =>
    intro data r s1 d1 h hnodup f hf
    exact absurd hf (List.not_mem_nil f)
  | cons g rest ih =>
    intro data r s1 d1 h hnodup f hf dv hdv
    have hn : g.name ∉ fieldNames rest ∧ (fieldNames rest).Nodup :=
      List.nodup_cons.mp hnodup
    simp only [extract_dict] at h
    rcases List.mem_cons.mp hf with rfl | hf2
    · -- f is the head field g
      simp only [hdv] at h
      cases hs : dictLookup src f.name with
      | none =>
        simp only [hs] at h
        cases hrec : extract_dict rest src (dictErase data f.name) with
        | error e =>
          simp only [hrec] at h
          exact Except.noConfusion h
        | ok trip =>
          obtain ⟨r2, s2, d2⟩ := trip
          simp only [hrec, Except.ok.injEq, Prod.mk.injEq] at h
          obtain ⟨rfl, rfl, rfl⟩ := h
          constructor
          · intro _
            rw [dictLookup_dictInsert, if_pos rfl]
          · intro sv hsv
            exact Option.noConfusion hsv
      | some sv0 =>
        simp only [hs] at h
        cases hm : merge_field_value f.merge sv0 dv with
        | error e =>
          simp only [hm] at h
          exact Except.noConfusion h
        | ok m =>
          simp only [hm] at h
          cases hrec : extract_dict rest src (dictErase data f.name) with
          | error e =>
            simp only [hrec] at h
            exact Except.noConfusion h
          | ok trip =>
            obtain ⟨r2, s2, d2⟩ := trip
            simp only [hrec, Except.ok.injEq, Prod.mk.injEq] at h
            obtain ⟨rfl, rfl, rfl⟩ := h
            constructor
            · intro hnone
              exact Option.noConfusion hnone
            · intro sv hsv
              injection hsv with hsv2
              subst hsv2
              refine ⟨m, hm, ?_⟩
              rw [dictLookup_dictInsert, if_pos rfl]
    · -- f is in the tail
      have hfn : f.name ∈ fieldNames rest := List.mem_map_of_mem FieldSpec.name hf2
      have hne : f.name ≠ g.name := fun he => hn.1 (he ▸ hfn)
      cases hd : dictLookup data g.name with
      | none =>
        simp only [hd] at h
        exact ih data r s1 d1 h hn.2 f hf2 dv hdv
      | some dgv =>
        simp only [hd] at h
        have hdv1 : dictLookup (dictErase data g.name) f.name = some dv := by
          rw [dictLookup_dictErase, if_neg hne]
          exact hdv
        cases hs : dictLookup src g.name with
        | none =>
          simp only [hs] at h
          cases hrec : extract_dict rest src (dictErase data g.name) with
          | error e =>
            simp only [hrec] at h
            exact Except.noConfusion h
          | ok trip =>
            obtain ⟨r2, s2, d2⟩ := trip
            simp only [hrec, Except.ok.injEq, Prod.mk.injEq] at h
            obtain ⟨rfl, rfl, rfl⟩ := h
            have hr2 := ih _ _ _ _ hrec hn.2 f hf2 dv hdv1
            rw [dictLookup_dictInsert, if_neg hne]
            exact hr2
        | some sgv =>
          simp only [hs] at h
          cases hm : merge_field_value g.merge sgv dgv with
          | error e =>
            simp only [hm] at h
            exact Except.noConfusion h
          | ok m =>
            simp only [hm] at h
            cases hrec : extract_dict rest src (dictErase data g.name) with
            | error e =>
              simp only [hrec] at h
              exact Except.noConfusion h
            | ok trip =>
              obtain ⟨r2, s2, d2⟩ := trip
              simp only [hrec, Except.ok.injEq, Prod.mk.injEq] at h
              obtain ⟨rfl, rfl, rfl⟩ := h
              have hr2 := ih _ _ _ _ hrec hn.2 f hf2 dv hdv1
              rw [dictLookup_dictInsert, if_neg hne]
              exact hr2

theorem hide_step_lookup_other (f : FieldSpec) (d : Dict) (key : String)
    (hne : f.name ≠ key) :
    dictLookup (hide_step f d) key = dictLookup d key := by
  unfold hide_step
  cases hd : dictLookup d f.name with
  | none => rfl
  | some v =>
    show dictLookup
      (if v ≠ Value.null then d
       else if should_show f then d else dictErase d f.name) key = dictLookup d key
    by_cases hv : v ≠ Value.null
    · rw [if_pos hv]
    · rw [if_neg hv]
      by_cases hsh : should_show f = true
      · rw [if_pos hsh]
      · rw [if_neg hsh]
        rw [dictLookup_dictErase, if_neg (fun he => hne he.symm)]

theorem hide_step_lookup_self (f : FieldSpec) (d : Dict) :
    dictLookup (hide_step f d) f.name =
      match dictLookup d f.name with
      | none => none
      | some v =>
        if v = Value.null ∧ should_show f = false then none else some v := by
  unfold hide_step
  cases hd : dictLookup d f.name with
  | none =>
    exact hd
  | some v =>
    show dictLookup
      (if v ≠ Value.null then d
       else if should_show f then d else dictErase d f.name) f.name =
      if v = Value.null ∧ should_show f = false then none else some v
    by_cases hv : v ≠ Value.null
    · rw [if_pos hv, hd]
      rw [if_neg (fun hc => hv hc.1)]
    · have hv2 : v = Value.null := not_not.mp hv
      subst hv2
      rw [if_neg hv]
      by_cases hsh : should_show f = true
      · rw [if_pos hsh, hd]
        have hc : ¬ (Value.null = Value.null ∧ should_show f = false) := by
          intro hc
          rw [hsh] at hc
          exact Bool.noConfusion hc.2
        rw [if_neg hc]
      · have hsh2 : should_show f = false := Bool.eq_false_iff.mpr hsh
        rw [if_neg hsh]
        rw [dictLookup_dictErase, if_pos rfl]
        rw [if_pos ⟨rfl, hsh2⟩]

theorem to_dict_hide_pass_lookup_of_not_touched (key : String) :
    ∀ fields : List FieldSpec, (∀ f ∈ fields, f.name ≠ key) →
      ∀ d : Dict, dictLookup (to_dict_hide_pass fields d) key = dictLookup d key := by
  intro fields
  induction fields with
  | nil =>
    intro _ d
    rfl
  | cons g rest ih =>
    intro hall d
    show dictLookup (to_dict_hide_pass rest (hide_step g d)) key = dictLookup d key
    rw [ih (fun f hf => hall f (List.mem_cons_of_mem g hf)) (hide_step g d)]
    exact hide_step_lookup_other g d key (hall g (List.mem_cons_self g rest))

theorem to_dict_hide_pass_lookup (key : String) :
    ∀ fields : List FieldSpec, (fieldNames fields).Nodup →
      ∀ f ∈ fields, f.name = key →
      ∀ d : Dict,
        dictLookup (to_dict_hide_pass fields d) key =
          match dictLookup d key with
          | none => none
          | some v =>
            if v = Value.null ∧ should_show f = false then none else some v := by
  intro fields
  induction fields with
  | nil =>
    intro _ f hf
    exact absurd hf (List.not_mem_nil f)
  | cons g rest ih =>
    intro hnodup f hf hkey d
    have hn : g.name ∉ fieldNames rest ∧ (fieldNames rest).Nodup :=
      List.nodup_cons.mp hnodup
    rcases List.mem_cons.mp hf with rfl | hf2
    · subst hkey
      have hnt : ∀ g2 ∈ rest, g2.name ≠ f.name :=
        fun g2 hg2 he => hn.1 (he ▸ List.mem_map_of_mem FieldSpec.name hg2)
      show dictLookup (to_dict_hide_pass rest (hide_step f d)) f.name = _
      rw [to_dict_hide_pass_lookup_of_not_touched f.name rest hnt (hide_step f d)]
      exact hide_step_lookup_self f d
    · have hmem : key ∈ fieldNames rest :=
        hkey ▸ List.mem_map_of_mem FieldSpec.name hf2
      have hgne : g.name ≠ key := by
        intro he
        apply hn.1
        rw [he]
        exact hmem
      show dictLookup (to_dict_hide_pass rest (hide_step g d)) key = _
      rw [ih hn.2 f hf2 hkey (hide_step g d)]
      rw [hide_step_lookup_other g d key hgne]

theorem extract_dict_data_nodup (src : Dict) :
    ∀ (fields : List FieldSpec) (data r s1 d1 : Dict),
      extract_dict fields src data = Except.ok (r, s1, d1) →
      (keysOf data).Nodup → (keysOf d1).Nodup := by
  intro fields
  induction fields with
  | nil =>
    intro data r s1 d1 h hd
    simp only [extract_dict, Except.ok.injEq, Prod.mk.injEq] at h
    obtain ⟨rfl, rfl, rfl⟩ := h
    exact hd
  | cons f rest ih =>
    intro data r s1 d1 h hdn
    simp only [extract_dict] at h
    cases hd : dictLookup data f.name with
    | none =>
      simp only [hd] at h
      exact ih data r s1 d1 h hdn
    | some dv =>
      simp only [hd] at h
      have hdn1 : (keysOf (dictErase data f.name)).Nodup :=
        keysOf_dictErase_nodup data f.name hdn
      cases hs : dictLookup src f.name with
      | none =>
        simp only [hs] at h
        cases hrec : extract_dict rest src (dictErase data f.name) with
        | error e =>
          simp only [hrec] at h
          exact Except.noConfusion h
        | ok trip =>
          obtain ⟨r2, s2, d2⟩ := trip
          simp only [hrec, Except.ok.injEq, Prod.mk.injEq] at h
          obtain ⟨rfl, rfl, rfl⟩ := h
          exact ih _ _ _ _ hrec hdn1
      | some sv =>
        simp only [hs] at h
        cases hm : merge_field_value f.merge sv dv with
        | error e =>
          simp only [hm] at h
          exact Except.noConfusion h
        | ok m =>
          simp only [hm] at h
          cases hrec : extract_dict rest src (dictErase data f.name) with
          | error e =>
            simp only [hrec] at h
            exact Except.noConfusion h
          | ok trip =>
            obtain ⟨r2, s2, d2⟩ := trip
            simp only [hrec, Except.ok.injEq, Prod.mk.injEq] at h
            obtain ⟨rfl, rfl, rfl⟩ := h
            exact ih _ _ _ _ hrec hdn1

/-- Claim C5: merging a source value and an incoming value under the Append
policy yields the list source-then-incoming in order with duplicates
preserved, where a non-list value on either side is first treated as a
one-element list (every non-list constructor is wrapped as a singleton, and a
list is taken as-is). -/
theorem claim_c5_append_merge :
    (∀ S I : Value, merge_field_value MergeBehavior.Append S I =
      Except.ok (Value.list (listify S ++ listify I))) ∧
    (∀ xs : List Value, listify (Value.list xs) = xs) ∧
    listify Value.null = [Value.null] ∧
    (∀ b : Bool, listify (Value.bool b) = [Value.bool b]) ∧
    (∀ n : Int, listify (Value.int n) = [Value.int n]) ∧
    (∀ t : String, listify (Value.str t) = [Value.str t]) ∧
    (∀ entries : List (String × Value),
      listify (Value.dict entries) = [Value.dict entries]) :=
  ⟨fun _ _ => rfl, fun _ => rfl, rfl, fun _ => rfl, fun _ => rfl,
    fun _ => rfl, fun _ => rfl⟩

/-- Claim C6: merging under the Update policy fails with a type error
(`InternalException`) whenever either side is not mapping-typed — the source
value is checked first — and otherwise returns the source mapping shallowly
copied and overwritten key-by-key with the incoming mapping's entries, the
incoming side winning on shared keys. -/
theorem claim_c6_update_merge :
    (∀ s o : Value, isDictValue s = false →
      merge_field_value MergeBehavior.Update s o =
        Except.error (DbtError.internalError "expected dict, got self_value")) ∧
    (∀ s o : Value, isDictValue s = true → isDictValue o = false →
      merge_field_value MergeBehavior.Update s o =
        Except.error (DbtError.internalError "expected dict, got other_value")) ∧
    (∀ ds os : List (String × Value),
      merge_field_value MergeBehavior.Update (Value.dict ds) (Value.dict os) =
        Except.ok (Value.dict (dictUpdate ds os))) ∧
    (∀ ds os : List (String × Value), (keysOf os).Nodup → ∀ key : String,
      dictLookup (dictUpdate ds os) key =
        match dictLookup os key with
        | some v => some v
        | none => dictLookup ds key) := by
  refine ⟨?_, ?_, fun ds os => rfl,
    fun ds os h key => dictLookup_dictUpdate ds os key h⟩
  · intro s o hs
    cases s with
    | dict entries => exact absurd hs (by simp [isDictValue])
    | null => rfl
    | bool b => rfl
    | int n => rfl
    | str t => rfl
    | list xs => rfl
  · intro s o hs ho
    cases s with
    | dict entries =>
      cases o with
      | dict e2 => exact absurd ho (by simp [isDictValue])
      | null => rfl
      | bool b => rfl
      | int n => rfl
      | str t => rfl
      | list xs => rfl
    | null => exact absurd hs (by simp [isDictValue])
    | bool b => exact absurd hs (by simp [isDictValue])
    | int n => exact absurd hs (by simp [isDictValue])
    | str t => exact absurd hs (by simp [isDictValue])
    | list xs => exact absurd hs (by simp [isDictValue])

theorem claim_c6_update_merge_witness :
    merge_field_value MergeBehavior.Update (Value.str "x") Value.null =
      Except.error (DbtError.internalError "expected dict, got self_value") ∧
    merge_field_value MergeBehavior.Update (Value.dict []) (Value.str "y") =
      Except.error (DbtError.internalError "expected dict, got other_value") ∧
    dictLookup (dictUpdate [("a", Value.int 1), ("b", Value.int 2)]
      [("b", Value.int 3), ("c", Value.int 4)]) "b" = some (Value.int 3) := by
  refine ⟨claim_c6_update_merge.1 (Value.str "x") Value.null rfl,
    claim_c6_update_merge.2.1 (Value.dict []) (Value.str "y") rfl rfl, ?_⟩
  have h := claim_c6_update_merge.2.2.2 [("a", Value.int 1), ("b", Value.int 2)]
    [("b", Value.int 3), ("c", Value.int 4)] (by decide) "b"
  rw [h]
  rfl

/-- Claim C4: content-equivalence of two raw documents holds iff every
declared field whose Compare policy is Include agrees under three-way
presence logic on its key, and every key of either document that is not a
declared-field key agrees likewise; Exclude-policy declared fields are never
compared. -/
theorem claim_c4_same_contents :
    ∀ (fields : List FieldSpec) (unrendered other : Dict),
      same_contents fields unrendered other = true ↔
        ((∀ f ∈ fields, f.compare = CompareBehavior.Include →
            agreesOn unrendered other f.name) ∧
          (∀ k : String, (k ∈ keysOf unrendered ∨ k ∈ keysOf other) →
            k ∉ fieldNames fields → agreesOn unrendered other k)) := by
  intro fields u o
  have hsi : ∀ f : FieldSpec,
      should_include f = true ↔ f.compare = CompareBehavior.Include := by
    intro f
    simp [should_include]
  unfold same_contents
  rw [Bool.and_eq_true, same_contents_fields_iff,
    same_contents_extras_iff u o (keysOf u ++ keysOf o) (fieldNames fields)]
  constructor
  · rintro ⟨h1, h2⟩
    constructor
    · intro f hf hinc
      exact (compare_key_iff_agreesOn u o f.name).mp (h1 f hf ((hsi f).mpr hinc))
    · intro k hk hnf
      refine (compare_key_iff_agreesOn u o k).mp (h2 k ?_ hnf)
      rw [List.mem_append]
      exact hk
  · rintro ⟨h1, h2⟩
    constructor
    · intro f hf hinc
      exact (compare_key_iff_agreesOn u o f.name).mpr (h1 f hf ((hsi f).mp hinc))
    · intro k hk hnf
      refine (compare_key_iff_agreesOn u o k).mpr (h2 k ?_ hnf)
      rw [List.mem_append] at hk
      exact hk

/-- Claim C7: when `_extract_dict` returns successfully, every declared-field
key has been removed from the incoming document, every other key of the
incoming document is untouched, and the source document is unchanged. -/
theorem claim_c7_extract_destructive :
    ∀ (fields : List FieldSpec) (src data result src1 data1 : Dict),
      extract_dict fields src data = Except.ok (result, src1, data1) →
      (∀ k ∈ fieldNames fields, hasKey data1 k = false) ∧
      (∀ k : String, k ∉ fieldNames fields →
        dictLookup data1 k = dictLookup data k) ∧
      src1 = src := by
  intro fields src data result src1 data1 h
  obtain ⟨hA, hB, _, _⟩ := extract_dict_ok_spec src fields data result src1 data1 h
  refine ⟨?_, ?_, hA⟩
  · intro k hk
    unfold hasKey
    rw [hB k, if_pos hk]
    rfl
  · intro k hk
    rw [hB k, if_neg hk]

theorem claim_c7_extract_destructive_witness :
    hasKey [("x", Value.int 3)] "a" = false ∧
    dictLookup [("x", Value.int 3)] "x" =
      dictLookup [("a", Value.int 2), ("x", Value.int 3)] "x" ∧
    ([("a", Value.int 1)] : Dict) = [("a", Value.int 1)] := by
  have h := claim_c7_extract_destructive [{ name := "a" }] [("a", Value.int 1)]
    [("a", Value.int 2), ("x", Value.int 3)] [("a", Value.int 2)]
    [("a", Value.int 1)] [("x", Value.int 3)] rfl
  exact ⟨h.1 "a" (by decide), h.2.1 "x" (by decide), h.2.2⟩

theorem snapshot_dispatch_eq (data : Dict) (config : Dict)
    (hcfg : (dictLookup data "config").getD (Value.dict []) = Value.dict config) :
    snapshot_dispatch data =
      (if dictLookup config "strategy" = some (Value.str "check") then
        some (SchemaChoice.checkSchema, config)
      else if dictLookup config "strategy" = some (Value.str "timestamp") then
        some (SchemaChoice.timestampSchema, config)
      else some (SchemaChoice.genericSchema, data)) := by
  unfold snapshot_dispatch
  rw [hcfg]

/-- Claim C2: snapshot-union validation dispatches on the embedded config
sub-document's `strategy` value: `"check"` selects the check-strategy schema
alone (validating the config sub-document), `"timestamp"` selects the
timestamp-strategy schema alone, and in every other case — strategy missing
or any other value, or `config` absent — the union wrapper's own generic
schema is used on the whole document. -/
theorem claim_c2_snapshot_dispatch :
    ∀ (data : Dict) (config : Dict),
      (dictLookup data "config").getD (Value.dict []) = Value.dict config →
      (dictLookup config "strategy" = some (Value.str "check") →
        snapshot_dispatch data = some (SchemaChoice.checkSchema, config)) ∧
      (dictLookup config "strategy" = some (Value.str "timestamp") →
        snapshot_dispatch data = some (SchemaChoice.timestampSchema, config)) ∧
      (dictLookup config "strategy" ≠ some (Value.str "check") →
        dictLookup config "strategy" ≠ some (Value.str "timestamp") →
        snapshot_dispatch data = some (SchemaChoice.genericSchema, data)) ∧
      (dictLookup data "config" = none →
        snapshot_dispatch data = some (SchemaChoice.genericSchema, data)) := by
  intro data config hcfg
  refine ⟨?_, ?_, ?_, ?_⟩
  · intro hs
    rw [snapshot_dispatch_eq data config hcfg, if_pos hs]
  · intro hs
    have hne : dictLookup config "strategy" ≠ some (Value.str "check") := by
      rw [hs]
      intro hc
      injection hc with hc2
      exact absurd hc2 (by decide)
    rw [snapshot_dispatch_eq data config hcfg, if_neg hne, if_pos hs]
  · intro h1 h2
    rw [snapshot_dispatch_eq data config hcfg, if_neg h1, if_neg h2]
  · intro hnone
    have hc0 : Value.dict config = Value.dict [] := by
      rw [← hcfg, hnone]
      rfl
    injection hc0 with hc1
    subst hc1
    have h1 : dictLookup ([] : Dict) "strategy" ≠ some (Value.str "check") := by
      intro hc
      exact Option.noConfusion hc
    have h2 : dictLookup ([] : Dict) "strategy" ≠ some (Value.str "timestamp") := by
      intro hc
      exact Option.noConfusion hc
    rw [snapshot_dispatch_eq data [] hcfg, if_neg h1, if_neg h2]

theorem claim_c2_snapshot_dispatch_witness :
    snapshot_dispatch [("config", Value.dict [("strategy", Value.str "check")])] =
      some (SchemaChoice.checkSchema, [("strategy", Value.str "check")]) ∧
    snapshot_dispatch [("config", Value.dict [("strategy", Value.str "xyz")])] =
      some (SchemaChoice.genericSchema,
        [("config", Value.dict [("strategy", Value.str "xyz")])]) := by
  refine ⟨(claim_c2_snapshot_dispatch
    [("config", Value.dict [("strategy", Value.str "check")])]
    [("strategy", Value.str "check")] rfl).1 rfl, ?_⟩
  exact (claim_c2_snapshot_dispatch
    [("config", Value.dict [("strategy", Value.str "xyz")])]
    [("strategy", Value.str "xyz")] rfl).2.2.1 (by decide) (by decide)

/-- Claim C8: serializing with `omit_none = False` (all fields present) and
`omit_hidden = True`, a declared field whose Show policy is Hide is dropped
from the result exactly when its serialized value is null; a populated
Hide-policy field is retained, and a Show-policy field is never dropped. -/
theorem claim_c8_hide_policy :
    ∀ (fields : List FieldSpec) (base : Dict) (f : FieldSpec) (v : Value),
      (fieldNames fields).Nodup → f ∈ fields →
      dictLookup base f.name = some v →
      dictLookup (to_dict fields base false true) f.name =
        (if f.show_hide = ShowBehavior.Hide ∧ v = Value.null then none
         else some v) := by
  intro fields base f v hnodup hf hbase
  have hpass : to_dict fields base false true = to_dict_hide_pass fields base := by
    unfold to_dict
    rfl
  rw [hpass]
  rw [to_dict_hide_pass_lookup f.name fields hnodup f hf rfl base, hbase]
  show (if v = Value.null ∧ should_show f = false then none else some v) = _
  cases hsh : f.show_hide with
  | Show =>
    have h1 : should_show f = true := by simp [should_show, hsh]
    rw [if_neg (fun hc => Bool.noConfusion (h1 ▸ hc.2))]
    rw [if_neg (fun hc => ShowBehavior.noConfusion hc.1)]
  | Hide =>
    have h1 : should_show f = false := by simp [should_show, hsh]
    by_cases hv : v = Value.null
    · rw [if_pos ⟨hv, h1⟩, if_pos ⟨rfl, hv⟩]
    · rw [if_neg (fun hc => hv hc.1), if_neg (fun hc => hv hc.2)]

theorem claim_c8_hide_policy_witness :
    dictLookup (to_dict
      [{ name := "tags", merge := MergeBehavior.Append,
         show_hide := ShowBehavior.Hide, compare := CompareBehavior.Exclude }]
      [("tags", Value.null)] false true) "tags" = none ∧
    dictLookup (to_dict
      [{ name := "tags", merge := MergeBehavior.Append,
         show_hide := ShowBehavior.Hide, compare := CompareBehavior.Exclude }]
      [("tags", Value.str "x")] false true) "tags" = some (Value.str "x") := by
  constructor
  · have h := claim_c8_hide_policy
      [{ name := "tags", merge := MergeBehavior.Append,
         show_hide := ShowBehavior.Hide, compare := CompareBehavior.Exclude }]
      [("tags", Value.null)]
      { name := "tags", merge := MergeBehavior.Append,
        show_hide := ShowBehavior.Hide, compare := CompareBehavior.Exclude }
      Value.null (by decide) (by decide) rfl
    rw [h]
    rfl
  · have h := claim_c8_hide_policy
      [{ name := "tags", merge := MergeBehavior.Append,
         show_hide := ShowBehavior.Hide, compare := CompareBehavior.Exclude }]
      [("tags", Value.str "x")]
      { name := "tags", merge := MergeBehavior.Append,
        show_hide := ShowBehavior.Hide, compare := CompareBehavior.Exclude }
      (Value.str "x") (by decide) (by decide) rfl
    rw [h]
    rfl

/-- Claim C9, counterexample: the claim says a key that does not name a
declared field is removed from the extra bucket, but for the record whose
only declared field is `enabled` and whose extra bucket holds the key
`to_dict`, deleting `to_dict` — not a declared field — raises the
protected-key `CompilationException` instead of removing it, because the
code's guard is `hasattr` and `to_dict` is an inherited method. -/
theorem claim_c9_counterexample :
    hasKey (ConfigObj.mk [("enabled", Value.bool true)]
      [("to_dict", Value.str "x")]).instanceAttrs "to_dict" = false ∧
    hasKey (ConfigObj.mk [("enabled", Value.bool true)]
      [("to_dict", Value.str "x")]).extra "to_dict" = true ∧
    delitem (ConfigObj.mk [("enabled", Value.bool true)]
      [("to_dict", Value.str "x")]) "to_dict" =
      Except.error (DbtError.compilationError (protected_key_msg "to_dict")) :=
  ⟨rfl, rfl, rfl⟩

/-- Claim C9 (amended): deletion through the map-like interface fails with
the protected-key `CompilationException` if the key names a declared field —
or, more generally, any attribute of the record, methods included — and only
a key naming no attribute at all is removed from the extra bucket; the error
is raised synchronously and the declared field is left in place (the failing
call returns no modified record). -/
theorem claim_c9_delete_protected :
    ∀ (obj : ConfigObj) (declared : List String) (key : String),
      (∀ k ∈ declared, hasKey obj.instanceAttrs k = true) →
      (key ∈ declared →
        delitem obj key =
          Except.error (DbtError.compilationError (protected_key_msg key))) ∧
      (hasattr obj key = true →
        delitem obj key =
          Except.error (DbtError.compilationError (protected_key_msg key))) ∧
      (hasattr obj key = false → hasKey obj.extra key = true →
        delitem obj key =
          Except.ok { obj with extra := dictErase obj.extra key }) := by
  intro obj declared key hdecl
  have hdel : hasattr obj key = true →
      delitem obj key =
        Except.error (DbtError.compilationError (protected_key_msg key)) := by
    intro hat
    unfold delitem
    rw [hat, if_pos rfl]
  refine ⟨?_, hdel, ?_⟩
  · intro hk
    refine hdel ?_
    unfold hasattr
    rw [hdecl key hk]
    rfl
  · intro hat hex
    unfold delitem
    rw [hat, if_neg (fun hc => Bool.noConfusion hc)]
    cases hl : dictLookup obj.extra key with
    | none =>
      unfold hasKey at hex
      rw [hl] at hex
      exact Bool.noConfusion hex
    | some w => rfl

theorem claim_c9_delete_protected_witness :
    delitem (ConfigObj.mk [("enabled", Value.bool true)]
      [("custom", Value.int 5)]) "enabled" =
      Except.error (DbtError.compilationError (protected_key_msg "enabled")) ∧
    delitem (ConfigObj.mk [("enabled", Value.bool true)]
      [("custom", Value.int 5)]) "custom" =
      Except.ok (ConfigObj.mk [("enabled", Value.bool true)] []) := by
  constructor
  · exact (claim_c9_delete_protected
      (ConfigObj.mk [("enabled", Value.bool true)] [("custom", Value.int 5)])
      ["enabled"] "enabled" (by decide)).1 (by decide)
  · exact (claim_c9_delete_protected
      (ConfigObj.mk [("enabled", Value.bool true)] [("custom", Value.int 5)])
      ["enabled"] "custom" (by decide)).2.2 rfl rfl

/-- Claim C10: the declared-field test of the map-like interface is general
attribute presence (`hasattr`), not declared-config-field membership: a key
naming any attribute of the record that is not an instance field — a method
name such as `to_dict` — is treated as built-in, so `get` returns that
attribute instead of failing with KeyNotFound, `set` assigns over it leaving
the extra bucket untouched (such keys can never be stored there), and
`delete` raises the protected-key error. -/
theorem claim_c10_hasattr_interface :
    ∀ (obj : ConfigObj) (key : String) (v : Value),
      base_attr_names.contains key = true →
      hasKey obj.instanceAttrs key = false →
      hasattr obj key = true ∧
      getitem obj key = Except.ok (Attr.methodAttr key) ∧
      setitem obj key v =
        { obj with instanceAttrs := dictInsert obj.instanceAttrs key v } ∧
      (setitem obj key v).extra = obj.extra ∧
      delitem obj key =
        Except.error (DbtError.compilationError (protected_key_msg key)) := by
  intro obj key v hcont hfield
  have hlook : dictLookup obj.instanceAttrs key = none := by
    cases hl : dictLookup obj.instanceAttrs key with
    | none => rfl
    | some w =>
      unfold hasKey at hfield
      rw [hl] at hfield
      exact Bool.noConfusion hfield
  have hattr : hasattr obj key = true := by
    unfold hasattr
    rw [hfield, hcont]
    rfl
  have hset : setitem obj key v =
      { obj with instanceAttrs := dictInsert obj.instanceAttrs key v } := by
    unfold setitem
    rw [hattr, if_pos rfl]
  refine ⟨hattr, ?_, hset, ?_, ?_⟩
  · unfold getitem
    rw [hattr, if_pos rfl, hlook]
  · rw [hset]
  · unfold delitem
    rw [hattr, if_pos rfl]

theorem claim_c10_hasattr_interface_witness :
    hasattr (ConfigObj.mk [("enabled", Value.bool true)] []) "to_dict" = true ∧
    getitem (ConfigObj.mk [("enabled", Value.bool true)] []) "to_dict" =
      Except.ok (Attr.methodAttr "to_dict") ∧
    (setitem (ConfigObj.mk [("enabled", Value.bool true)] [])
      "to_dict" (Value.int 7)).extra = [] ∧
    delitem (ConfigObj.mk [("enabled", Value.bool true)] []) "to_dict" =
      Except.error (DbtError.compilationError (protected_key_msg "to_dict")) := by
  have h := claim_c10_hasattr_interface
    (ConfigObj.mk [("enabled", Value.bool true)] []) "to_dict" (Value.int 7)
    rfl rfl
  exact ⟨h.1, h.2.1, h.2.2.2.1, h.2.2.2.2⟩

/-- Claim C3, counterexample: the claim ranks a strategy-field enum error
least specific (rank weight 1), so whenever any other violation is present
the strategy error is not the one reported; but the code's key gives it
weight 1 while every other error gets a non-positive weight, and the
maximising selection therefore reports the strategy enum error over a
root-level required-field error, in either input order. -/
theorem claim_c3_counterexample :
    relevance_without_strategy strategy_enum_error = (1, true) ∧
    relevance_without_strategy required_updated_at_error = (0, true) ∧
    best_match [strategy_enum_error, required_updated_at_error] =
      some strategy_enum_error ∧
    best_match [required_updated_at_error, strategy_enum_error] =
      some strategy_enum_error :=
  ⟨rfl, rfl, rfl, rfl⟩

/-- Claim C3 (amended): the single reported violation is the one maximising
the ranking key: an error whose path contains the strategy field and whose
rule kind is an enum or negation check is given rank weight 1 and therefore
outranks every other error (whose rank is negative path depth, so that among
them shallower paths win); among errors of equal rank weight, those whose
rule kind is not anyOf/oneOf outrank anyOf/oneOf errors; and the document
`config = (strategy "timestamp", unique_key, target_schema)` missing
`updated_at` is dispatched to the timestamp-strategy schema — so the
ranking never sees a competing strategy-enum error — and its reported
violation names `updated_at`, not `strategy`. -/
theorem claim_c3_relevance_ranking :
    (∀ e1 e2 : VError,
      (decide (PathElem.strKey "strategy" ∈ e1.path) &&
        (e1.validator == "enum" || e1.validator == "not")) = true →
      (decide (PathElem.strKey "strategy" ∈ e2.path) &&
        (e2.validator == "enum" || e2.validator == "not")) = false →
      pyKeyLt (relevance_without_strategy e2) (relevance_without_strategy e1) =
        true) ∧
    (∀ e1 e2 : VError,
      (decide (PathElem.strKey "strategy" ∈ e1.path) &&
        (e1.validator == "enum" || e1.validator == "not")) = false →
      (decide (PathElem.strKey "strategy" ∈ e2.path) &&
        (e2.validator == "enum" || e2.validator == "not")) = false →
      e1.path.length < e2.path.length →
      pyKeyLt (relevance_without_strategy e2) (relevance_without_strategy e1) =
        true) ∧
    (∀ e1 e2 : VError,
      (relevance_without_strategy e1).1 = (relevance_without_strategy e2).1 →
      (e1.validator == "anyOf" || e1.validator == "oneOf") = false →
      (e2.validator == "anyOf" || e2.validator == "oneOf") = true →
      pyKeyLt (relevance_without_strategy e2) (relevance_without_strategy e1) =
        true) ∧
    (snapshot_dispatch [("config", Value.dict snapshot_c3_config)] =
        some (SchemaChoice.timestampSchema, snapshot_c3_config) ∧
      timestamp_required_errors snapshot_c3_config =
        [required_updated_at_error] ∧
      best_match (timestamp_required_errors snapshot_c3_config) =
        some required_updated_at_error) := by
  refine ⟨?_, ?_, ?_, rfl, rfl, rfl⟩
  · intro e1 e2 h1 h2
    have hr1 : (relevance_without_strategy e1).1 = 1 := by
      unfold relevance_without_strategy
      simp only [h1]
      rfl
    have hr2 : (relevance_without_strategy e2).1 = -(e2.path.length : Int) := by
      unfold relevance_without_strategy
      simp only [h2]
      rfl
    unfold pyKeyLt
    rw [hr1, hr2]
    have hlt : (-(e2.path.length : Int)) < 1 := by omega
    rw [decide_eq_true hlt]
    rfl
  · intro e1 e2 h1 h2 hlen
    have hr1 : (relevance_without_strategy e1).1 = -(e1.path.length : Int) := by
      unfold relevance_without_strategy
      simp only [h1]
      rfl
    have hr2 : (relevance_without_strategy e2).1 = -(e2.path.length : Int) := by
      unfold relevance_without_strategy
      simp only [h2]
      rfl
    unfold pyKeyLt
    rw [hr1, hr2]
    have hlt : (-(e2.path.length : Int)) < -(e1.path.length : Int) := by omega
    rw [decide_eq_true hlt]
    rfl
  · intro e1 e2 heq hw1 hw2
    have hb1 : (relevance_without_strategy e1).2 = true := by
      unfold relevance_without_strategy
      simp only [hw1]
      rfl
    have hb2 : (relevance_without_strategy e2).2 = false := by
      unfold relevance_without_strategy
      simp only [hw2]
      rfl
    unfold pyKeyLt
    rw [hb1, hb2, heq]
    have hirr : ¬ ((relevance_without_strategy e2).1 <
        (relevance_without_strategy e2).1) := lt_irrefl _
    rw [decide_eq_false hirr, decide_eq_true rfl]
    rfl

theorem claim_c3_relevance_ranking_witness :
    pyKeyLt (relevance_without_strategy required_updated_at_error)
      (relevance_without_strategy strategy_enum_error) = true ∧
    pyKeyLt (relevance_without_strategy deep_type_error)
      (relevance_without_strategy required_updated_at_error) = true ∧
    pyKeyLt (relevance_without_strategy anyof_union_error)
      (relevance_without_strategy required_updated_at_error) = true := by
  refine ⟨claim_c3_relevance_ranking.1 strategy_enum_error
      required_updated_at_error rfl rfl, ?_, ?_⟩
  · exact claim_c3_relevance_ranking.2.1 required_updated_at_error
      deep_type_error rfl rfl (by decide)
  · exact claim_c3_relevance_ranking.2.2.1 required_updated_at_error
      anyof_union_error rfl rfl rfl

/-- Claim C1: for a record serialized in full, an incoming document holding an
own-field key, an adapter-field key and a key declared by neither, the mapping
produced by `update_from` combines the own-field key with the record's
serialized value under that field's own merge policy, combines the
adapter-field key with the serialized value under the adapter config type's
policy for it, and carries the unrecognized key's value over verbatim
(clobber), reflecting the three-phase own-fields, adapter-fields, raw-clobber
order. -/
theorem claim_c1_layered_update :
    ∀ (self_fields adapter_fields : List FieldSpec)
      (self_dict data out : Dict) (f1 f2 : FieldSpec) (k3 : String)
      (s1 s2 d1 d2 d3 m1 m2 : Value),
      (keysOf data).Nodup →
      f1 ∈ self_fields →
      f2 ∈ adapter_fields →
      f2.name ∉ fieldNames self_fields →
      k3 ∉ fieldNames self_fields →
      k3 ∉ fieldNames adapter_fields →
      (fieldNames self_fields).Nodup →
      (fieldNames adapter_fields).Nodup →
      dictLookup data f1.name = some d1 →
      dictLookup data f2.name = some d2 →
      dictLookup data k3 = some d3 →
      dictLookup self_dict f1.name = some s1 →
      dictLookup self_dict f2.name = some s2 →
      merge_field_value f1.merge s1 d1 = Except.ok m1 →
      merge_field_value f2.merge s2 d2 = Except.ok m2 →
      update_from self_fields adapter_fields self_dict data = Except.ok out →
      dictLookup out f1.name = some m1 ∧
      dictLookup out f2.name = some m2 ∧
      dictLookup out k3 = some d3 := by
  intro sf af sd data out f1 f2 k3 s1 s2 d1 d2 d3 m1 m2
  intro hdn hf1 hf2 hf2ns hk3s hk3a hsn han hd1 hd2 hd3 hs1 hs2 hm1 hm2 hout
  simp only [update_from] at hout
  have hdct : to_dict sf sd false false = sd := rfl
  rw [hdct] at hout
  cases hex1 : extract_dict sf sd data with
  | error e =>
    simp only [hex1] at hout
    exact Except.noConfusion hout
  | ok trip1 =>
    obtain ⟨sm, ssrc, data1⟩ := trip1
    simp only [hex1] at hout
    obtain ⟨hA1, hB1, hC1, hD1⟩ := extract_dict_ok_spec sd sf data sm ssrc data1 hex1
    have hsmn : (keysOf sm).Nodup :=
      extract_dict_result_keys_nodup sd sf data sm ssrc data1 hex1
    have hdn1 : (keysOf data1).Nodup :=
      extract_dict_data_nodup sd sf data sm ssrc data1 hex1 hdn
    have hsm_f1 : dictLookup sm f1.name = some m1 := by
      obtain ⟨m, hm, hl⟩ :=
        (extract_dict_result_lookup sd sf data sm ssrc data1 hex1 hsn f1 hf1
          d1 hd1).2 s1 hs1
      rw [hm1] at hm
      injection hm with hmeq
      rw [← hmeq] at hl
      exact hl
    have hsm_f2 : dictLookup sm f2.name = none := hC1 f2.name hf2ns
    have hdata1_f1 : dictLookup data1 f1.name = none := by
      have hmem1 : f1.name ∈ fieldNames sf := List.mem_map_of_mem FieldSpec.name hf1
      rw [hB1 f1.name, if_pos hmem1]
    have hdata1_f2 : dictLookup data1 f2.name = some d2 := by
      rw [hB1 f2.name, if_neg hf2ns]
      exact hd2
    have hdata1_k3 : dictLookup data1 k3 = some d3 := by
      rw [hB1 k3, if_neg hk3s]
      exact hd3
    have hdct1_f1 : dictLookup (dictUpdate sd sm) f1.name = some m1 := by
      rw [dictLookup_dictUpdate sd sm f1.name hsmn, hsm_f1]
    have hdct1_f2 : dictLookup (dictUpdate sd sm) f2.name = some s2 := by
      rw [dictLookup_dictUpdate sd sm f2.name hsmn, hsm_f2]
      exact hs2
    cases hex2 : extract_dict af (dictUpdate sd sm) data1 with
    | error e =>
      simp only [hex2] at hout
      exact Except.noConfusion hout
    | ok trip2 =>
      obtain ⟨am, asrc, data2⟩ := trip2
      simp only [hex2] at hout
      injection hout with hout2
      subst hout2
      obtain ⟨hA2, hB2, hC2, hD2⟩ :=
        extract_dict_ok_spec (dictUpdate sd sm) af data1 am asrc data2 hex2
      have hamn : (keysOf am).Nodup :=
        extract_dict_result_keys_nodup (dictUpdate sd sm) af data1 am asrc data2 hex2
      have hdn2 : (keysOf data2).Nodup :=
        extract_dict_data_nodup (dictUpdate sd sm) af data1 am asrc data2 hex2 hdn1
      have ham_f2 : dictLookup am f2.name = some m2 := by
        obtain ⟨m, hm, hl⟩ :=
          (extract_dict_result_lookup (dictUpdate sd sm) af data1 am asrc data2
            hex2 han f2 hf2 d2 hdata1_f2).2 s2 hdct1_f2
        rw [hm2] at hm
        injection hm with hmeq
        rw [← hmeq] at hl
        exact hl
      have ham_f1 : dictLookup am f1.name = none := by
        by_cases hmem : f1.name ∈ fieldNames af
        · exact hD2 f1.name hdata1_f1
        · exact hC2 f1.name hmem
      have ham_k3 : dictLookup am k3 = none := hC2 k3 hk3a
      have hdata2_f1 : dictLookup data2 f1.name = none := by
        rw [hB2 f1.name]
        by_cases hmem : f1.name ∈ fieldNames af
        · rw [if_pos hmem]
        · rw [if_neg hmem]
          exact hdata1_f1
      have hdata2_f2 : dictLookup data2 f2.name = none := by
        have hmem2 : f2.name ∈ fieldNames af := List.mem_map_of_mem FieldSpec.name hf2
        rw [hB2 f2.name, if_pos hmem2]
      have hdata2_k3 : dictLookup data2 k3 = some d3 := by
        rw [hB2 k3, if_neg hk3a]
        exact hdata1_k3
      have hdct2_f1 :
          dictLookup (dictUpdate (dictUpdate sd sm) am) f1.name = some m1 := by
        rw [dictLookup_dictUpdate (dictUpdate sd sm) am f1.name hamn, ham_f1]
        exact hdct1_f1
      have hdct2_f2 :
          dictLookup (dictUpdate (dictUpdate sd sm) am) f2.name = some m2 := by
        rw [dictLookup_dictUpdate (dictUpdate sd sm) am f2.name hamn, ham_f2]
      have hdct2_k3 :
          dictLookup (dictUpdate (dictUpdate sd sm) am) k3 =
            dictLookup (dictUpdate sd sm) k3 := by
        rw [dictLookup_dictUpdate (dictUpdate sd sm) am k3 hamn, ham_k3]
      refine ⟨?_, ?_, ?_⟩
      · rw [dictLookup_dictUpdate (dictUpdate (dictUpdate sd sm) am) data2
          f1.name hdn2, hdata2_f1]
        exact hdct2_f1
      · rw [dictLookup_dictUpdate (dictUpdate (dictUpdate sd sm) am) data2
          f2.name hdn2, hdata2_f2]
        exact hdct2_f2
      · rw [dictLookup_dictUpdate (dictUpdate (dictUpdate sd sm) am) data2
          k3 hdn2, hdata2_k3]

theorem claim_c1_layered_update_witness :
    dictLookup [("a", Value.list [Value.int 1, Value.int 2]),
      ("b", Value.dict [("p", Value.int 1), ("q", Value.int 2)]),
      ("c", Value.str "z")] "a" = some (Value.list [Value.int 1, Value.int 2]) ∧
    dictLookup [("a", Value.list [Value.int 1, Value.int 2]),
      ("b", Value.dict [("p", Value.int 1), ("q", Value.int 2)]),
      ("c", Value.str "z")] "b" =
      some (Value.dict [("p", Value.int 1), ("q", Value.int 2)]) ∧
    dictLookup [("a", Value.list [Value.int 1, Value.int 2]),
      ("b", Value.dict [("p", Value.int 1), ("q", Value.int 2)]),
      ("c", Value.str "z")] "c" = some (Value.str "z") := by
  have h := claim_c1_layered_update
    [{ name := "a", merge := MergeBehavior.Append }]
    [{ name := "b", merge := MergeBehavior.Update }]
    [("a", Value.list [Value.int 1]), ("b", Value.dict [("p", Value.int 1)])]
    [("a", Value.list [Value.int 2]), ("b", Value.dict [("q", Value.int 2)]),
      ("c", Value.str "z")]
    [("a", Value.list [Value.int 1, Value.int 2]),
      ("b", Value.dict [("p", Value.int 1), ("q", Value.int 2)]),
      ("c", Value.str "z")]
    { name := "a", merge := MergeBehavior.Append }
    { name := "b", merge := MergeBehavior.Update }
    "c" (Value.list [Value.int 1]) (Value.dict [("p", Value.int 1)])
    (Value.list [Value.int 2]) (Value.dict [("q", Value.int 2)]) (Value.str "z")
    (Value.list [Value.int 1, Value.int 2])
    (Value.dict [("p", Value.int 1), ("q", Value.int 2)])
    (by decide) (by decide) (by decide) (by decide) (by decide) (by decide)
    (by decide) (by decide) rfl rfl rfl rfl rfl rfl rfl rfl
  exact h

end DbtModelConfig
